import Mathlib

set_option maxRecDepth 40000

/-!
Shallow embedding of the histogram-matching and LUT-synthesis engine of the
LUTMatcher repository (file `services/colorProcessor.ts`), together with
theorems settling the specification claims.

Modelling conventions:
* A `PixelBuffer` (JS `Uint8ClampedArray`) is a `List ℕ` of channel samples.
* Histogram buckets (`Uint32Array`) are modelled as `ℕ → ℕ` counts.
* JS floating-point values are modelled as `ℚ`; the single division in the
  engine (`cumulative / totalPixels`) is modelled by `jsDiv`, which returns
  `none` exactly when JS division by zero would return a non-finite value
  (`NaN` or `Infinity`).
* `Uint8ClampedArray` element conversion (clamp to `[0,255]`, round ties to
  even) is modelled by `clampRound255`.
-/

namespace LUTMatcher

/-- The fixed `.cube` grid resolution constant `LUT_SIZE = 33` of the source. -/
def LUT_SIZE : ℕ := 33

/-- One bucket increment `hist[v]++` on a 256-entry `Uint32Array`: a write at
an out-of-range index (`v > 255`) is discarded, as in JS typed arrays. -/
def bump (h : ℕ → ℕ) (v : ℕ) : ℕ → ℕ :=
  if v ≤ 255 then fun x => if x = v then h x + 1 else h x else h

/-- The triple of per-channel histograms returned by `getHistogram`. -/
structure Histograms where
  rHist : ℕ → ℕ
  gHist : ℕ → ℕ
  bHist : ℕ → ℕ

/-- The all-zero bucket array `new Uint32Array(256).fill(0)`. -/
def emptyHist : ℕ → ℕ := fun _ => 0

/-- Embedding of `getHistogram`: walk the flat RGBA sample list in steps of 4,
incrementing the red/green/blue bucket at each sample value; the alpha sample
is skipped.  A trailing chunk of fewer than 4 samples (impossible for a
well-formed buffer) counts only the samples that exist, mirroring the JS
loop's reads of `data[i]`, `data[i+1]`, `data[i+2]`. -/
def getHistogram : List ℕ → Histograms
  | r :: g :: b :: _ :: rest =>
    let h := getHistogram rest
    ⟨bump h.rHist r, bump h.gHist g, bump h.bHist b⟩
  | [r, g, b] => ⟨bump emptyHist r, bump emptyHist g, bump emptyHist b⟩
  | [r, g] => ⟨bump emptyHist r, bump emptyHist g, emptyHist⟩
  | [r] => ⟨bump emptyHist r, emptyHist, emptyHist⟩
  | [] => ⟨emptyHist, emptyHist, emptyHist⟩

/-- The running sum `cumulative` of `getCDF` after processing bucket `i`. -/
def cumHist (hist : ℕ → ℕ) : ℕ → ℕ
  | 0 => hist 0
  | n + 1 => cumHist hist n + hist (n + 1)

/-- JS floating-point division `a / b`, with `none` standing for the
non-finite result (`NaN` or `Infinity`) produced when `b = 0`. -/
def jsDiv (a b : ℚ) : Option ℚ := if b = 0 then none else some (a / b)

/-- Embedding of `getCDF`: entry `i` of the CDF array is the running sum of the
first `i + 1` buckets divided by `totalPixels`. -/
def getCDF (hist : ℕ → ℕ) (totalPixels : ℕ) (i : ℕ) : Option ℚ :=
  jsDiv (cumHist hist i) totalPixels

/-- The numeric value of a CDF entry (defaulting the non-finite case to 0);
used to feed `getCDF` output into `createMapping`. -/
def cdfVal (hist : ℕ → ℕ) (totalPixels : ℕ) (i : ℕ) : ℚ :=
  (getCDF hist totalPixels i).getD 0

/-- The `while (refIdx < 255 && refCdf[refIdx] < sourceCdf[srcIdx]) refIdx++`
loop of `createMapping`, written with explicit fuel.  With fuel `255 - refIdx`
the fuel never runs out before the `refIdx < 255` guard stops the loop, so the
function computes exactly the JS loop's final cursor. -/
def advanceRefAux (refCdf : ℕ → ℚ) (s : ℚ) : ℕ → ℕ → ℕ
  | 0, refIdx => refIdx
  | fuel + 1, refIdx =>
    if refIdx < 255 ∧ refCdf refIdx < s then advanceRefAux refCdf s fuel (refIdx + 1)
    else refIdx

/-- Advance the reference cursor from `refIdx` for source CDF value `s`. -/
def advanceRef (refCdf : ℕ → ℚ) (s : ℚ) (refIdx : ℕ) : ℕ :=
  advanceRefAux refCdf s (255 - refIdx) refIdx

/-- Embedding of `createMapping`: `createMapping sourceCdf refCdf srcIdx` is the
value stored in `mapping[srcIdx]`, i.e. the reference cursor after the sweep has
processed source indices `0, 1, ..., srcIdx` in order (the cursor persists from
one source index to the next and never moves backward). -/
def createMapping (sourceCdf refCdf : ℕ → ℚ) : ℕ → ℕ
  | 0 => advanceRef refCdf (sourceCdf 0) 0
  | n + 1 => advanceRef refCdf (sourceCdf (n + 1)) (createMapping sourceCdf refCdf n)

/-- Modelled from the spec: the tie-break policy of §4.3 describes the mapped
value as "the *first* reference value whose CDF is no longer less than the
source value".  `firstAtLeast refCdf s` searches indices `0, 1, ...` for the
first `j` with `refCdf j ≥ s`, stopping at 255 if none exists below it. -/
def firstAtLeastAux (refCdf : ℕ → ℚ) (s : ℚ) : ℕ → ℕ → ℕ
  | 0, j => j
  | fuel + 1, j => if s ≤ refCdf j then j else firstAtLeastAux refCdf s fuel (j + 1)

/-- Modelled from the spec: the smallest reference value achieving at least the
cumulative fraction `s`, capped at 255. -/
def firstAtLeast (refCdf : ℕ → ℚ) (s : ℚ) : ℕ :=
  firstAtLeastAux refCdf s 255 0

/-- Rounding of a rational to an integer with ties to even, as in the
`Uint8ClampedArray` element conversion (ECMAScript `ToUint8Clamp`). -/
def roundTiesEven (q : ℚ) : ℤ :=
  if q - ⌊q⌋ < 1 / 2 then ⌊q⌋
  else if (1 : ℚ) / 2 < q - ⌊q⌋ then ⌊q⌋ + 1
  else if 2 ∣ ⌊q⌋ then ⌊q⌋ else ⌊q⌋ + 1

/-- ECMAScript `ToUint8Clamp`: clamp to `[0, 255]`, rounding ties to even.
This is what an assignment into a `Uint8ClampedArray` performs. -/
def clampRound255 (q : ℚ) : ℕ :=
  if q ≤ 0 then 0 else if 255 ≤ q then 255 else (roundTiesEven q).toNat

/-- One blended channel sample of the grading loop of `processImages`:
`resultData[i] = src + (match - src) * intensity` stored into a
`Uint8ClampedArray`. -/
def blendByte (s m : ℕ) (intensity : ℚ) : ℕ :=
  clampRound255 ((s : ℚ) + ((m : ℚ) - (s : ℚ)) * intensity)

/-- Embedding of the "Apply to Preview" loop of `processImages` (the Grading
Applicator): every RGBA quadruple is mapped channel-wise through the three
channel mappings, blended by `intensity`, and the alpha sample is set to 255.
Trailing chunks of fewer than 4 samples blend the samples that exist,
mirroring the JS loop (reads past the end yield `undefined`, whose blended
`NaN` result is written out of bounds and discarded). -/
def applyMappings : List ℕ → (ℕ → ℕ) → (ℕ → ℕ) → (ℕ → ℕ) → ℚ → List ℕ
  | r :: g :: b :: _ :: rest, mr, mg, mb, t =>
    blendByte r (mr r) t :: blendByte g (mg g) t :: blendByte b (mb b) t :: 255 ::
      applyMappings rest mr mg mb t
  | [r, g, b], mr, mg, mb, t => [blendByte r (mr r) t, blendByte g (mg g) t, blendByte b (mb b) t]
  | [r, g], mr, mg, _, t => [blendByte r (mr r) t, blendByte g (mg g) t]
  | [r], mr, _, _, t => [blendByte r (mr r) t]
  | [], _, _, _, _ => []

/-- Expected output of the Grading Applicator at intensity 0, following the
spec's words: "a buffer byte-identical to the input buffer (alpha forced to
255)". -/
def forceAlpha255 : List ℕ → List ℕ
  | r :: g :: b :: _ :: rest => r :: g :: b :: 255 :: forceAlpha255 rest
  | l => l

/-- Expected output of the Grading Applicator at intensity 1, following the
spec's words: "the fully mapped result" (each color sample replaced by its
mapped value, alpha forced to 255). -/
def fullyMapped : List ℕ → (ℕ → ℕ) → (ℕ → ℕ) → (ℕ → ℕ) → List ℕ
  | r :: g :: b :: _ :: rest, mr, mg, mb => mr r :: mg g :: mb b :: 255 :: fullyMapped rest mr mg mb
  | [r, g, b], mr, mg, mb => [mr r, mg g, mb b]
  | [r, g], mr, mg, _ => [mr r, mg g]
  | [r], mr, _, _ => [mr r]
  | [], _, _, _ => []

/-- The buffer with every alpha sample replaced by 0 (used to state that the
Histogram Builder never reads alpha samples). -/
def zeroAlpha : List ℕ → List ℕ
  | r :: g :: b :: _ :: rest => r :: g :: b :: 0 :: zeroAlpha rest
  | l => l

/-- Left-pad a digit string with `0` characters to width 6. -/
def pad6 (s : String) : String :=
  String.mk (List.replicate (6 - s.length) '0') ++ s

/-- JS `Number.prototype.toFixed(6)` for a nonnegative value: round
`q * 10^6` to the nearest integer and print with six decimal digits. -/
def toFixed6 (q : ℚ) : String :=
  let n : ℕ := (round (q * 1000000)).toNat
  toString (n / 1000000) ++ "." ++ pad6 (toString (n % 1000000))

/-- One data line of `generateLUTData`:
`rv.toFixed(6) + " " + gv.toFixed(6) + " " + bv.toFixed(6)` with
`rv = r / (LUT_SIZE - 1)` and likewise for `g`, `b`. -/
def lutLine (r g b : ℕ) : String :=
  toFixed6 ((r : ℚ) / ((LUT_SIZE : ℚ) - 1)) ++ " " ++
    toFixed6 ((g : ℚ) / ((LUT_SIZE : ℚ) - 1)) ++ " " ++
    toFixed6 ((b : ℚ) / ((LUT_SIZE : ℚ) - 1))

/-- The data lines emitted by the triple loop of `generateLUTData`, with `b`
outermost, `g` middle, `r` innermost. -/
def lutDataLines : List String :=
  (List.range LUT_SIZE).flatMap fun b =>
    (List.range LUT_SIZE).flatMap fun g =>
      (List.range LUT_SIZE).map fun r => lutLine r g b

/-- Embedding of `generateLUTData`: a `TITLE` line, a `LUT_3D_SIZE` line, a
blank line, then one line per grid node.  Exactly as in the source, the
`sourceUrl`, `refUrl` and `intensity` arguments are never consulted: the body
emits a fixed identity grid. -/
def generateLUTData (sourceUrl refUrl : String) (intensity : ℚ) : String :=
  "TITLE \"LuminaLUT Grade\"\n" ++ ("LUT_3D_SIZE " ++ toString LUT_SIZE ++ "\n\n") ++
    String.join (lutDataLines.map fun l => l ++ "\n")

/-- Modelled from the spec: §4.5's intended per-axis LUT value, which the
source only sketches in comments (`applyMapping(rv, mappings.r, intensity)`).
The normalized axis value `i/(N-1)` is rescaled to the 0–255 domain, pushed
through the channel mapping, blended by intensity exactly as in §4.4, and
rescaled back to `[0,1]`. -/
def intendedValue (m : ℕ → ℕ) (intensity : ℚ) (i : ℕ) : ℚ :=
  let v : ℚ := (i : ℚ) / ((LUT_SIZE : ℚ) - 1)
  let s : ℚ := v * 255
  (s + ((m (roundTiesEven s).toNat : ℚ) - s) * intensity) / 255

/-- Modelled from the spec: the data line §4.5 intends for grid node
`(r, g, b)` given the three channel mappings and the intensity. -/
def intendedLUTLine (mr mg mb : ℕ → ℕ) (intensity : ℚ) (r g b : ℕ) : String :=
  toFixed6 (intendedValue mr intensity r) ++ " " ++
    toFixed6 (intendedValue mg intensity g) ++ " " ++
    toFixed6 (intendedValue mb intensity b)

/-- Flat RGBA buffer of an image with exactly 10 pixels, all of red value 50
(green, blue 0, alpha 255): the round-trip scenario's source image. -/
def srcData10 : List ℕ := List.flatten (List.replicate 10 [50, 0, 0, 255])

/-- Flat RGBA buffer of an image with exactly 10 pixels, all of red value 200:
the round-trip scenario's reference image. -/
def refData10 : List ℕ := List.flatten (List.replicate 10 [200, 0, 0, 255])

/-- The red channel mapping produced by the full pipeline (Histogram Builder →
Distribution Normalizer → Channel Mapper) on the round-trip scenario images. -/
def roundtripRedMapping : ℕ → ℕ :=
  createMapping (cdfVal (getHistogram srcData10).rHist 10)
    (cdfVal (getHistogram refData10).rHist 10)

/-! ### Lemmas about the reference-cursor sweep -/

theorem advanceRefAux_ge (refCdf : ℕ → ℚ) (s : ℚ) :
    ∀ fuel refIdx, refIdx ≤ advanceRefAux refCdf s fuel refIdx
  | 0, _ => le_refl _
  | fuel + 1, refIdx => by
    rw [advanceRefAux]
    split
    · exact le_trans (Nat.le_succ refIdx) (advanceRefAux_ge refCdf s fuel (refIdx + 1))
    · exact le_refl _

theorem advanceRefAux_le_255 (refCdf : ℕ → ℚ) (s : ℚ) :
    ∀ fuel refIdx, refIdx ≤ 255 → advanceRefAux refCdf s fuel refIdx ≤ 255
  | 0, _, h => h
  | fuel + 1, refIdx, h => by
    rw [advanceRefAux]
    split
    · next hc => exact advanceRefAux_le_255 refCdf s fuel (refIdx + 1) hc.1
    · exact h

theorem advanceRefAux_lt_of_lt (refCdf : ℕ → ℚ) (s : ℚ) :
    ∀ fuel refIdx k, refIdx ≤ k → k < advanceRefAux refCdf s fuel refIdx → refCdf k < s
  | 0, refIdx, k, hk, hlt => absurd hlt (Nat.not_lt.mpr hk)
  | fuel + 1, refIdx, k, hk, hlt => by
    rw [advanceRefAux] at hlt
    split at hlt
    · next hc =>
      rcases Nat.eq_or_lt_of_le hk with rfl | hklt
      · exact hc.2
      · exact advanceRefAux_lt_of_lt refCdf s fuel (refIdx + 1) k hklt hlt
    · exact absurd hlt (Nat.not_lt.mpr hk)

theorem advanceRefAux_stop (refCdf : ℕ → ℚ) (s : ℚ) :
    ∀ fuel refIdx, refIdx ≤ 255 → 255 ≤ refIdx + fuel →
      advanceRefAux refCdf s fuel refIdx = 255 ∨ s ≤ refCdf (advanceRefAux refCdf s fuel refIdx)
  | 0, refIdx, h1, h2 => by
    left
    rw [advanceRefAux]
    omega
  | fuel + 1, refIdx, h1, h2 => by
    rw [advanceRefAux]
    split
    · next hc => exact advanceRefAux_stop refCdf s fuel (refIdx + 1) hc.1 (by omega)
    · next hc =>
      rcases Nat.lt_or_ge refIdx 255 with hlt | hge
      · right
        exact le_of_not_lt fun hs => hc ⟨hlt, hs⟩
      · left
        omega

theorem createMapping_le_255 (sourceCdf refCdf : ℕ → ℚ) :
    ∀ n, createMapping sourceCdf refCdf n ≤ 255
  | 0 => advanceRefAux_le_255 _ _ _ 0 (by omega)
  | n + 1 => by
    rw [createMapping, advanceRef]
    exact advanceRefAux_le_255 _ _ _ _ (createMapping_le_255 sourceCdf refCdf n)

theorem createMapping_lb (sourceCdf refCdf : ℕ → ℚ)
    (hs : ∀ a b, a ≤ b → sourceCdf a ≤ sourceCdf b) :
    ∀ n k, k < createMapping sourceCdf refCdf n → refCdf k < sourceCdf n
  | 0, k, hk => by
    rw [createMapping, advanceRef] at hk
    exact advanceRefAux_lt_of_lt _ _ _ 0 k (Nat.zero_le k) hk
  | n + 1, k, hk => by
    rw [createMapping, advanceRef] at hk
    rcases Nat.lt_or_ge k (createMapping sourceCdf refCdf n) with hlt | hge
    · exact lt_of_lt_of_le (createMapping_lb sourceCdf refCdf hs n k hlt)
        (hs n (n + 1) (Nat.le_succ n))
    · exact advanceRefAux_lt_of_lt _ _ _ _ k hge hk

theorem createMapping_stop (sourceCdf refCdf : ℕ → ℚ) (n : ℕ) :
    createMapping sourceCdf refCdf n = 255 ∨
      sourceCdf n ≤ refCdf (createMapping sourceCdf refCdf n) := by
  cases n with
  | zero =>
    rw [createMapping, advanceRef]
    exact advanceRefAux_stop _ _ _ 0 (by omega) (by omega)
  | succ m =>
    rw [createMapping, advanceRef]
    have hc := createMapping_le_255 sourceCdf refCdf m
    exact advanceRefAux_stop _ _ _ _ hc (by omega)

theorem createMapping_le_succ (sourceCdf refCdf : ℕ → ℚ) (n : ℕ) :
    createMapping sourceCdf refCdf n ≤ createMapping sourceCdf refCdf (n + 1) := by
  conv_rhs => rw [createMapping]
  exact advanceRefAux_ge _ _ _ _

theorem createMapping_mono (sourceCdf refCdf : ℕ → ℚ) :
    ∀ i j, i ≤ j → createMapping sourceCdf refCdf i ≤ createMapping sourceCdf refCdf j := by
  intro i j hij
  induction j with
  | zero => simp [Nat.le_zero.mp hij]
  | succ m ih =>
    rcases le_or_lt i m with h | h
    · exact le_trans (ih h) (createMapping_le_succ sourceCdf refCdf m)
    · have : i = m + 1 := by omega
      simp [this]

/-- Claim C1: for every pair of CDF arrays, the ChannelMapping produced by
`createMapping` is monotonically non-decreasing in the source value: for all
source indices `i < j` in `0..255`, `mapping[i] ≤ mapping[j]`. -/
theorem channelMapping_monotone (sourceCdf refCdf : ℕ → ℚ) (i j : ℕ)
    (hij : i < j) (hj : j ≤ 255) :
    createMapping sourceCdf refCdf i ≤ createMapping sourceCdf refCdf j :=
  createMapping_mono sourceCdf refCdf i j (le_of_lt hij)

/-- Witness for claim C1 at a concrete input. -/
theorem channelMapping_monotone_witness :
    createMapping (fun _ => (0 : ℚ)) (fun _ => (0 : ℚ)) 0 ≤
      createMapping (fun _ => (0 : ℚ)) (fun _ => (0 : ℚ)) 1 :=
  channelMapping_monotone (fun _ => (0 : ℚ)) (fun _ => (0 : ℚ)) 0 1 (by omega) (by omega)

/-! ### The cursor stops at the first reference value at or above the source level -/

theorem firstAtLeastAux_le (refCdf : ℕ → ℚ) (s : ℚ) :
    ∀ fuel j, firstAtLeastAux refCdf s fuel j ≤ j + fuel
  | 0, j => le_refl _
  | fuel + 1, j => by
    rw [firstAtLeastAux]
    split
    · omega
    · have := firstAtLeastAux_le refCdf s fuel (j + 1)
      omega

theorem firstAtLeastAux_lt_of_lt (refCdf : ℕ → ℚ) (s : ℚ) :
    ∀ fuel j k, j ≤ k → k < firstAtLeastAux refCdf s fuel j → refCdf k < s
  | 0, j, k, hk, hlt => absurd hlt (Nat.not_lt.mpr hk)
  | fuel + 1, j, k, hk, hlt => by
    rw [firstAtLeastAux] at hlt
    split at hlt
    · exact absurd hlt (Nat.not_lt.mpr hk)
    · next hc =>
      rcases Nat.eq_or_lt_of_le hk with rfl | hklt
      · exact lt_of_not_le hc
      · exact firstAtLeastAux_lt_of_lt refCdf s fuel (j + 1) k hklt hlt

theorem firstAtLeastAux_stop (refCdf : ℕ → ℚ) (s : ℚ) :
    ∀ fuel j, j + fuel = 255 →
      firstAtLeastAux refCdf s fuel j = 255 ∨ s ≤ refCdf (firstAtLeastAux refCdf s fuel j)
  | 0, j, h => by
    left
    rw [firstAtLeastAux]
    omega
  | fuel + 1, j, h => by
    rw [firstAtLeastAux]
    split
    · next hc => exact Or.inr hc
    · exact firstAtLeastAux_stop refCdf s fuel (j + 1) (by omega)

/-- Any two indices in `0..255` that are preceded only by reference CDF values
strictly below `s` and that either equal 255 or sit at a CDF value `≥ s`
coincide: the "first value no longer less than `s`" is unique. -/
theorem stopIndexUnique (refCdf : ℕ → ℚ) (s : ℚ) (x y : ℕ)
    (hx255 : x ≤ 255) (hy255 : y ≤ 255)
    (hxl : ∀ k, k < x → refCdf k < s) (hyl : ∀ k, k < y → refCdf k < s)
    (hxs : x = 255 ∨ s ≤ refCdf x) (hys : y = 255 ∨ s ≤ refCdf y) : x = y := by
  rcases lt_trichotomy x y with h | h | h
  · rcases hxs with rfl | hxs
    · omega
    · exact absurd (hyl x h) (not_lt.mpr hxs)
  · exact h
  · rcases hys with rfl | hys
    · omega
    · exact absurd (hxl y h) (not_lt.mpr hys)

/-- Claim C5: provided the source CDF is non-decreasing (as every valid CDF
is), the Channel Mapper assigns to every source index the first (smallest)
reference value whose CDF is no longer less than the source CDF value at that
index — `firstAtLeast`, the search the spec's tie-break policy describes. -/
theorem channelMapping_first_at_least (sourceCdf refCdf : ℕ → ℚ)
    (hs : ∀ a b, a ≤ b → sourceCdf a ≤ sourceCdf b) (i : ℕ) (hi : i ≤ 255) :
    createMapping sourceCdf refCdf i = firstAtLeast refCdf (sourceCdf i) := by
  apply stopIndexUnique refCdf (sourceCdf i)
  · exact createMapping_le_255 sourceCdf refCdf i
  · have := firstAtLeastAux_le refCdf (sourceCdf i) 255 0
    rw [firstAtLeast]
    omega
  · exact fun k hk => createMapping_lb sourceCdf refCdf hs i k hk
  · exact fun k hk => firstAtLeastAux_lt_of_lt refCdf (sourceCdf i) 255 0 k (Nat.zero_le k) hk
  · exact createMapping_stop sourceCdf refCdf i
  · exact firstAtLeastAux_stop refCdf (sourceCdf i) 255 0 (by omega)

/-- Witness for claim C5 at a concrete input. -/
theorem channelMapping_first_at_least_witness :
    createMapping (fun _ => (0 : ℚ)) (fun _ => (0 : ℚ)) 0 =
      firstAtLeast (fun _ => (0 : ℚ)) ((fun _ => (0 : ℚ)) 0) :=
  channelMapping_first_at_least (fun _ => (0 : ℚ)) (fun _ => (0 : ℚ))
    (fun _ _ _ => le_refl 0) 0 (by omega)

/-! ### Distribution Normalizer -/

theorem cumHist_mono (hist : ℕ → ℕ) : ∀ i j, i ≤ j → cumHist hist i ≤ cumHist hist j := by
  intro i j hij
  induction j with
  | zero => simp [Nat.le_zero.mp hij]
  | succ m ih =>
    rcases le_or_lt i m with h | h
    · calc cumHist hist i ≤ cumHist hist m := ih h
        _ ≤ cumHist hist m + hist (m + 1) := Nat.le_add_right _ _
        _ = cumHist hist (m + 1) := rfl
    · have : i = m + 1 := by omega
      simp [this]

theorem cumHist_eq_sum (hist : ℕ → ℕ) : ∀ n, cumHist hist n = ∑ v ∈ Finset.range (n + 1), hist v
  | 0 => by simp [cumHist]
  | n + 1 => by
    rw [cumHist, cumHist_eq_sum hist n, Finset.sum_range_succ _ (n + 1)]

theorem cdfVal_eq (hist : ℕ → ℕ) (total : ℕ) (htotal : 0 < total) (i : ℕ) :
    cdfVal hist total i = (cumHist hist i : ℚ) / (total : ℚ) := by
  have hne : ((total : ℕ) : ℚ) ≠ 0 := Nat.cast_ne_zero.mpr (by omega)
  simp [cdfVal, getCDF, jsDiv, hne]

theorem cdfVal_mono (hist : ℕ → ℕ) (total : ℕ) (htotal : 0 < total)
    (i j : ℕ) (hij : i ≤ j) : cdfVal hist total i ≤ cdfVal hist total j := by
  rw [cdfVal_eq hist total htotal, cdfVal_eq hist total htotal]
  have hpos : (0 : ℚ) < (total : ℚ) := by exact_mod_cast htotal
  have hc : (cumHist hist i : ℚ) ≤ (cumHist hist j : ℚ) := by
    exact_mod_cast cumHist_mono hist i j hij
  gcongr

/-- Claim C3: invoked with total pixel count 0, `getCDF` does not fail — it
divides by zero, so every entry of the returned array is the non-finite JS
value (`NaN`/`Infinity`), modelled here as `none`.  No `EmptyImage` error
exists anywhere in the code. -/
theorem getCDF_zero_total_non_finite : ∀ (hist : ℕ → ℕ) (i : ℕ), getCDF hist 0 i = none := by
  intro hist i
  simp [getCDF, jsDiv]

/-- Counterexample to claim C6 as stated: for the all-zero bucket array and
total pixel count 1 (which is `> 0`), the produced CDF has `CDF[255] = 0`,
not `1.0` — the claim fails when the bucket counts do not sum to the total. -/
theorem cdf_last_entry_counterexample :
    0 < 1 ∧ getCDF (fun _ => 0) 1 255 = some 0 ∧ (0 : ℚ) ≠ 1 := by
  refine ⟨Nat.one_pos, ?_, by norm_num⟩
  have : cumHist (fun _ => 0) 255 = 0 := by
    rw [cumHist_eq_sum]
    simp
  simp [getCDF, jsDiv, this]

/-- Claim C6 (amended): for every histogram bucket array *whose 256 counts sum
to the total pixel count* and every total pixel count `> 0`, the CDF produced
by `getCDF` is non-decreasing across indices `0..255`, has `CDF[0] ≥ 0`, and
has `CDF[255] = 1`. -/
theorem getCDF_valid (hist : ℕ → ℕ) (total i j : ℕ) (htotal : 0 < total)
    (hsum : ∑ v ∈ Finset.range 256, hist v = total) (hij : i ≤ j) (hj : j ≤ 255) :
    cdfVal hist total i ≤ cdfVal hist total j ∧
      0 ≤ cdfVal hist total 0 ∧ getCDF hist total 255 = some 1 := by
  have hne : ((total : ℕ) : ℚ) ≠ 0 := Nat.cast_ne_zero.mpr (by omega)
  refine ⟨cdfVal_mono hist total htotal i j hij, ?_, ?_⟩
  · rw [cdfVal_eq hist total htotal]
    exact div_nonneg (Nat.cast_nonneg _) (Nat.cast_nonneg _)
  · have h255 : cumHist hist 255 = total := by rw [cumHist_eq_sum hist 255]; exact hsum
    simp [getCDF, jsDiv, hne, h255]

/-- Witness for claim C6 (amended) at a concrete input. -/
theorem getCDF_valid_witness :
    cdfVal (fun v => if v = 0 then 1 else 0) 1 0 ≤ cdfVal (fun v => if v = 0 then 1 else 0) 1 255 ∧
      0 ≤ cdfVal (fun v => if v = 0 then 1 else 0) 1 0 ∧
      getCDF (fun v => if v = 0 then 1 else 0) 1 255 = some 1 :=
  getCDF_valid (fun v => if v = 0 then 1 else 0) 1 0 255 Nat.one_pos
    (by simp) (by omega) (by omega)

/-! ### Histogram Builder -/

theorem sum_bump (h : ℕ → ℕ) (v : ℕ) (hv : v ≤ 255) :
    ∑ x ∈ Finset.range 256, bump h v x = (∑ x ∈ Finset.range 256, h x) + 1 := by
  rw [bump, if_pos hv]
  have hsplit : ∀ x, (if x = v then h x + 1 else h x) = h x + (if x = v then 1 else 0) := by
    intro x
    by_cases hx : x = v <;> simp [hx]
  have hone : (∑ x ∈ Finset.range 256, if x = v then 1 else 0) = 1 := by
    rw [Finset.sum_eq_single v]
    · simp
    · intro c _ hc
      simp [hc]
    · intro hv'
      exact absurd (Finset.mem_range.mpr (by omega)) hv'
  rw [Finset.sum_congr rfl fun x _ => hsplit x, Finset.sum_add_distrib, hone]

theorem getHistogram_sums : ∀ data : List ℕ, data.length % 4 = 0 → (∀ x ∈ data, x ≤ 255) →
    (∑ v ∈ Finset.range 256, (getHistogram data).rHist v) = data.length / 4 ∧
      (∑ v ∈ Finset.range 256, (getHistogram data).gHist v) = data.length / 4 ∧
      (∑ v ∈ Finset.range 256, (getHistogram data).bHist v) = data.length / 4
  | r :: g :: b :: a :: rest, hlen, hb => by
    have hr : r ≤ 255 := hb r (by simp)
    have hg : g ≤ 255 := hb g (by simp)
    have hbb : b ≤ 255 := hb b (by simp)
    have hlen4 : (r :: g :: b :: a :: rest).length = rest.length + 4 := by
      simp [List.length]
    have hrest : rest.length % 4 = 0 := by
      rw [hlen4] at hlen
      omega
    have ih := getHistogram_sums rest hrest fun x hx => hb x (by simp [hx])
    have hdiv : (r :: g :: b :: a :: rest).length / 4 = rest.length / 4 + 1 := by
      rw [hlen4]
      omega
    rw [hdiv]
    show (∑ v ∈ Finset.range 256, bump (getHistogram rest).rHist r v) = _ ∧
      (∑ v ∈ Finset.range 256, bump (getHistogram rest).gHist g v) = _ ∧
      (∑ v ∈ Finset.range 256, bump (getHistogram rest).bHist b v) = _
    rw [sum_bump _ r hr, sum_bump _ g hg, sum_bump _ b hbb]
    exact ⟨by rw [ih.1], by rw [ih.2.1], by rw [ih.2.2]⟩
  | [r, g, b], hlen, _ => by simp [List.length] at hlen
  | [r, g], hlen, _ => by simp [List.length] at hlen
  | [r], hlen, _ => by simp [List.length] at hlen
  | [], _, _ => by
    refine ⟨?_, ?_, ?_⟩ <;> simp [getHistogram, emptyHist]

theorem getHistogram_zeroAlpha : ∀ data : List ℕ, getHistogram (zeroAlpha data) = getHistogram data
  | r :: g :: b :: a :: rest => by
    show getHistogram (r :: g :: b :: 0 :: zeroAlpha rest) = _
    rw [show getHistogram (r :: g :: b :: 0 :: zeroAlpha rest) =
      ⟨bump (getHistogram (zeroAlpha rest)).rHist r, bump (getHistogram (zeroAlpha rest)).gHist g,
        bump (getHistogram (zeroAlpha rest)).bHist b⟩ from rfl]
    rw [getHistogram_zeroAlpha rest]
    rfl
  | [] => rfl
  | [r] => rfl
  | [r, g] => rfl
  | [r, g, b] => rfl

/-- Claim C7: for every PixelBuffer whose length is a multiple of 4 and whose
samples are bytes, each of the three per-channel histograms produced by
`getHistogram` has counts summing to the total pixel count
(`length / 4`), and the histograms do not depend on the alpha samples. -/
theorem histogramBuilder_counts (data : List ℕ) (hlen : data.length % 4 = 0)
    (hb : ∀ x ∈ data, x ≤ 255) :
    (∑ v ∈ Finset.range 256, (getHistogram data).rHist v) = data.length / 4 ∧
      (∑ v ∈ Finset.range 256, (getHistogram data).gHist v) = data.length / 4 ∧
      (∑ v ∈ Finset.range 256, (getHistogram data).bHist v) = data.length / 4 ∧
      getHistogram (zeroAlpha data) = getHistogram data := by
  have h := getHistogram_sums data hlen hb
  exact ⟨h.1, h.2.1, h.2.2, getHistogram_zeroAlpha data⟩

/-- Witness for claim C7 at a concrete two-pixel buffer. -/
theorem histogramBuilder_counts_witness :
    (∑ v ∈ Finset.range 256, (getHistogram [1, 2, 3, 4, 5, 6, 7, 8]).rHist v) =
        [1, 2, 3, 4, 5, 6, 7, 8].length / 4 ∧
      (∑ v ∈ Finset.range 256, (getHistogram [1, 2, 3, 4, 5, 6, 7, 8]).gHist v) =
        [1, 2, 3, 4, 5, 6, 7, 8].length / 4 ∧
      (∑ v ∈ Finset.range 256, (getHistogram [1, 2, 3, 4, 5, 6, 7, 8]).bHist v) =
        [1, 2, 3, 4, 5, 6, 7, 8].length / 4 ∧
      getHistogram (zeroAlpha [1, 2, 3, 4, 5, 6, 7, 8]) = getHistogram [1, 2, 3, 4, 5, 6, 7, 8] :=
  histogramBuilder_counts [1, 2, 3, 4, 5, 6, 7, 8] (by decide) (by decide)

/-! ### Grading Applicator -/

theorem roundTiesEven_natCast (n : ℕ) : roundTiesEven (n : ℚ) = (n : ℤ) := by
  rw [roundTiesEven]
  rw [Int.floor_natCast]
  norm_num

theorem clampRound255_natCast (n : ℕ) (hn : n ≤ 255) : clampRound255 (n : ℚ) = n := by
  rw [clampRound255]
  rcases Nat.eq_zero_or_pos n with rfl | hpos
  · norm_num
  · rw [if_neg (not_le.mpr (by exact_mod_cast hpos))]
    by_cases h255 : 255 ≤ n
    · have heq : n = 255 := le_antisymm hn h255
      subst heq
      rw [if_pos (by norm_num)]
    · rw [if_neg fun hc => h255 (by exact_mod_cast hc)]
      rw [roundTiesEven_natCast]
      exact Int.toNat_natCast n

theorem blendByte_zero (s m : ℕ) (hs : s ≤ 255) : blendByte s m 0 = s := by
  rw [blendByte, mul_zero, add_zero]
  exact clampRound255_natCast s hs

theorem blendByte_one (s m : ℕ) (hm : m ≤ 255) : blendByte s m 1 = m := by
  rw [blendByte, mul_one]
  rw [show (s : ℚ) + ((m : ℚ) - (s : ℚ)) = (m : ℚ) by ring]
  exact clampRound255_natCast m hm

theorem applyMappings_zero (mr mg mb : ℕ → ℕ) :
    ∀ data : List ℕ, (∀ x ∈ data, x ≤ 255) →
      applyMappings data mr mg mb 0 = forceAlpha255 data
  | r :: g :: b :: a :: rest, h => by
    show blendByte r (mr r) 0 :: blendByte g (mg g) 0 :: blendByte b (mb b) 0 :: 255 ::
        applyMappings rest mr mg mb 0 = r :: g :: b :: 255 :: forceAlpha255 rest
    rw [blendByte_zero r _ (h r (by simp)), blendByte_zero g _ (h g (by simp)),
      blendByte_zero b _ (h b (by simp)),
      applyMappings_zero mr mg mb rest fun x hx => h x (by simp [hx])]
  | [r, g, b], h => by
    show [blendByte r (mr r) 0, blendByte g (mg g) 0, blendByte b (mb b) 0] = [r, g, b]
    rw [blendByte_zero r _ (h r (by simp)), blendByte_zero g _ (h g (by simp)),
      blendByte_zero b _ (h b (by simp))]
  | [r, g], h => by
    show [blendByte r (mr r) 0, blendByte g (mg g) 0] = [r, g]
    rw [blendByte_zero r _ (h r (by simp)), blendByte_zero g _ (h g (by simp))]
  | [r], h => by
    show [blendByte r (mr r) 0] = [r]
    rw [blendByte_zero r _ (h r (by simp))]
  | [], _ => rfl

theorem applyMappings_one (mr mg mb : ℕ → ℕ) (hmr : ∀ v, mr v ≤ 255)
    (hmg : ∀ v, mg v ≤ 255) (hmb : ∀ v, mb v ≤ 255) :
    ∀ data : List ℕ, applyMappings data mr mg mb 1 = fullyMapped data mr mg mb
  | r :: g :: b :: a :: rest => by
    show blendByte r (mr r) 1 :: blendByte g (mg g) 1 :: blendByte b (mb b) 1 :: 255 ::
        applyMappings rest mr mg mb 1 = mr r :: mg g :: mb b :: 255 :: fullyMapped rest mr mg mb
    rw [blendByte_one r _ (hmr r), blendByte_one g _ (hmg g), blendByte_one b _ (hmb b),
      applyMappings_one mr mg mb hmr hmg hmb rest]
  | [r, g, b] => by
    show [blendByte r (mr r) 1, blendByte g (mg g) 1, blendByte b (mb b) 1] = [mr r, mg g, mb b]
    rw [blendByte_one r _ (hmr r), blendByte_one g _ (hmg g), blendByte_one b _ (hmb b)]
  | [r, g] => by
    show [blendByte r (mr r) 1, blendByte g (mg g) 1] = [mr r, mg g]
    rw [blendByte_one r _ (hmr r), blendByte_one g _ (hmg g)]
  | [r] => by
    show [blendByte r (mr r) 1] = [mr r]
    rw [blendByte_one r _ (hmr r)]
  | [] => rfl

/-- Claim C4: for every source PixelBuffer (byte samples) and every triple of
ChannelMappings (byte targets), the Grading Applicator at intensity 0 returns
the input buffer with every alpha sample forced to 255, and at intensity 1
returns the fully histogram-matched result. -/
theorem gradingApplicator_intensity_bounds (data : List ℕ) (mr mg mb : ℕ → ℕ)
    (hdata : ∀ x ∈ data, x ≤ 255) (hmr : ∀ v, mr v ≤ 255)
    (hmg : ∀ v, mg v ≤ 255) (hmb : ∀ v, mb v ≤ 255) :
    applyMappings data mr mg mb 0 = forceAlpha255 data ∧
      applyMappings data mr mg mb 1 = fullyMapped data mr mg mb :=
  ⟨applyMappings_zero mr mg mb data hdata, applyMappings_one mr mg mb hmr hmg hmb data⟩

/-- Witness for claim C4 at a concrete one-pixel buffer and constant
mappings. -/
theorem gradingApplicator_intensity_bounds_witness :
    applyMappings [10, 20, 30, 40] (fun _ => 200) (fun _ => 100) (fun _ => 50) 0 =
        forceAlpha255 [10, 20, 30, 40] ∧
      applyMappings [10, 20, 30, 40] (fun _ => 200) (fun _ => 100) (fun _ => 50) 1 =
        fullyMapped [10, 20, 30, 40] (fun _ => 200) (fun _ => 100) (fun _ => 50) :=
  gradingApplicator_intensity_bounds [10, 20, 30, 40] (fun _ => 200) (fun _ => 100) (fun _ => 50)
    (by decide) (fun _ => by norm_num) (fun _ => by norm_num) (fun _ => by norm_num)

/-! ### Round-trip scenario -/

theorem roundtripRedMapping_saturated (i : ℕ)
    (hc : cumHist (getHistogram srcData10).rHist i = 10) :
    roundtripRedMapping i = 200 := by
  have h10 : (0 : ℕ) < 10 := by norm_num
  have hsi : cdfVal (getHistogram srcData10).rHist 10 i = 1 := by
    rw [cdfVal_eq _ 10 h10, hc]
    norm_num
  have h199 : cumHist (getHistogram refData10).rHist 199 = 0 := by decide
  have h200 : cumHist (getHistogram refData10).rHist 200 = 10 := by decide
  apply stopIndexUnique (cdfVal (getHistogram refData10).rHist 10)
    (cdfVal (getHistogram srcData10).rHist 10 i)
  · exact createMapping_le_255 _ _ i
  · omega
  · exact fun k hk => createMapping_lb _ _ (fun a b hab => cdfVal_mono _ 10 h10 a b hab) i k hk
  · intro k hk
    have hkz : cumHist (getHistogram refData10).rHist k = 0 := by
      have := cumHist_mono (getHistogram refData10).rHist k 199 (by omega)
      omega
    rw [hsi, cdfVal_eq _ 10 h10, hkz]
    norm_num
  · exact createMapping_stop _ _ i
  · right
    rw [hsi, cdfVal_eq _ 10 h10, h200]
    norm_num

theorem roundtripRedMapping_zero : roundtripRedMapping 0 = 0 := by
  have h10 : (0 : ℕ) < 10 := by norm_num
  have hs0 : cumHist (getHistogram srcData10).rHist 0 = 0 := by decide
  have hr0 : cumHist (getHistogram refData10).rHist 0 = 0 := by decide
  apply stopIndexUnique (cdfVal (getHistogram refData10).rHist 10)
    (cdfVal (getHistogram srcData10).rHist 10 0)
  · exact createMapping_le_255 _ _ 0
  · omega
  · exact fun k hk => createMapping_lb _ _ (fun a b hab => cdfVal_mono _ 10 h10 a b hab) 0 k hk
  · exact fun k hk => absurd hk (Nat.not_lt_zero k)
  · exact createMapping_stop _ _ 0
  · right
    rw [cdfVal_eq _ 10 h10, hs0, cdfVal_eq _ 10 h10, hr0]

/-- Claim C9: for a reference image of exactly 10 pixels of red value 200 and
a source image of 10 pixels of red value 50, the pipeline (Histogram Builder →
Distribution Normalizer → Channel Mapper) yields a red ChannelMapping sending
source value 50 to target value 200. -/
theorem roundtrip_scenario_mapping : roundtripRedMapping 50 = 200 :=
  roundtripRedMapping_saturated 50 (by decide)

/-! ### LUT Synthesizer -/

theorem round_eq_nat (q : ℚ) (n : ℕ) (h1 : (n : ℚ) ≤ q + 1 / 2)
    (h2 : q + 1 / 2 < (n : ℚ) + 1) : round q = (n : ℤ) := by
  rw [round_eq, Int.floor_eq_iff]
  constructor
  · push_cast
    linarith
  · push_cast
    linarith

theorem toFixed6_eval (q : ℚ) (n : ℕ) (h1 : (n : ℚ) ≤ q * 1000000 + 1 / 2)
    (h2 : q * 1000000 + 1 / 2 < (n : ℚ) + 1) :
    toFixed6 q = toString (n / 1000000) ++ "." ++ pad6 (toString (n % 1000000)) := by
  have h : round (q * 1000000) = (n : ℤ) := round_eq_nat _ n h1 h2
  simp only [toFixed6, h, Int.toNat_natCast]

theorem flatMapRange_length {α : Type} (f : ℕ → List α) (m : ℕ) (hf : ∀ i, (f i).length = m) :
    ∀ n, ((List.range n).flatMap f).length = n * m
  | 0 => by simp
  | n + 1 => by
    rw [List.range_succ, List.flatMap_append, List.length_append,
      flatMapRange_length f m hf n]
    simp [hf n, Nat.succ_mul]

theorem flatMapRange_getElem {α : Type} (f : ℕ → List α) (m : ℕ) (hf : ∀ i, (f i).length = m) :
    ∀ n q s, q < n → s < m → ((List.range n).flatMap f)[q * m + s]? = (f q)[s]?
  | 0, q, _, hq, _ => absurd hq (Nat.not_lt_zero q)
  | n + 1, q, s, hq, hs => by
    rw [List.range_succ, List.flatMap_append, List.getElem?_append,
      flatMapRange_length f m hf n]
    rcases Nat.lt_or_ge q n with hqn | hqn
    · have hlt : q * m + s < n * m := by
        have h1 : q * m + s < (q + 1) * m := by
          rw [Nat.succ_mul]
          omega
        exact lt_of_lt_of_le h1 (Nat.mul_le_mul_right m hqn)
      rw [if_pos hlt]
      exact flatMapRange_getElem f m hf n q s hqn hs
    · have hqe : q = n := by omega
      subst hqe
      rw [if_neg (by omega)]
      have hsub : q * m + s - q * m = s := by omega
      rw [hsub]
      simp

theorem lutDataLines_length : lutDataLines.length = 35937 := by
  rw [lutDataLines]
  rw [flatMapRange_length _ (33 * 33) (fun i => by
    rw [flatMapRange_length _ 33 (fun j => by simp [LUT_SIZE]) LUT_SIZE]
    norm_num [LUT_SIZE]) LUT_SIZE]
  norm_num [LUT_SIZE]

theorem lutDataLines_getElem (r g b : ℕ) (hr : r < 33) (hg : g < 33) (hb : b < 33) :
    lutDataLines[b * 1089 + (g * 33 + r)]? = some (lutLine r g b) := by
  rw [lutDataLines]
  have hmid : (b * 1089 + (g * 33 + r)) = b * (33 * 33) + (g * 33 + r) := by omega
  rw [hmid]
  rw [flatMapRange_getElem _ (33 * 33) (fun i => by
      rw [flatMapRange_length _ 33 (fun j => by simp [LUT_SIZE]) LUT_SIZE]
      norm_num [LUT_SIZE])
    LUT_SIZE b (g * 33 + r) (by norm_num [LUT_SIZE, hb]) (by omega)]
  rw [flatMapRange_getElem _ 33 (fun j => by simp [LUT_SIZE]) LUT_SIZE g r
    (by norm_num [LUT_SIZE, hg]) hr]
  rw [List.getElem?_map, List.getElem?_range (show r < LUT_SIZE by norm_num [LUT_SIZE, hr])]
  rfl

theorem lutLine_example : lutLine 1 2 3 = "0.031250 0.062500 0.093750" := by
  rw [lutLine]
  rw [toFixed6_eval _ 31250 (by norm_num [LUT_SIZE]) (by norm_num [LUT_SIZE]),
    toFixed6_eval _ 62500 (by norm_num [LUT_SIZE]) (by norm_num [LUT_SIZE]),
    toFixed6_eval _ 93750 (by norm_num [LUT_SIZE]) (by norm_num [LUT_SIZE])]
  decide

/-- Claim C8: the `.cube` payload is the two header lines and a blank line
followed by exactly `33³ = 35937` data lines in b-outer, g-middle, r-inner
order, the line at index `b·33² + g·33 + r` being the grid coordinate
`(r/32, g/32, b/32)` formatted to 6 decimals. -/
theorem lutSynthesizer_output_structure (s u : String) (r g b : ℕ)
    (hr : r < 33) (hg : g < 33) (hb : b < 33) :
    generateLUTData s u 1 =
        "TITLE \"LuminaLUT Grade\"\n" ++ ("LUT_3D_SIZE " ++ "33" ++ "\n\n") ++
          String.join (lutDataLines.map fun l => l ++ "\n") ∧
      lutDataLines.length = 35937 ∧
      lutDataLines[b * 1089 + (g * 33 + r)]? = some (lutLine r g b) ∧
      lutLine 1 2 3 = "0.031250 0.062500 0.093750" :=
  ⟨rfl, lutDataLines_length, lutDataLines_getElem r g b hr hg hb, lutLine_example⟩

/-- Witness for claim C8 at the grid node `(r, g, b) = (1, 2, 3)`. -/
theorem lutSynthesizer_output_structure_witness :
    generateLUTData "src" "ref" 1 =
        "TITLE \"LuminaLUT Grade\"\n" ++ ("LUT_3D_SIZE " ++ "33" ++ "\n\n") ++
          String.join (lutDataLines.map fun l => l ++ "\n") ∧
      lutDataLines.length = 35937 ∧
      lutDataLines[3 * 1089 + (2 * 33 + 1)]? = some (lutLine 1 2 3) ∧
      lutLine 1 2 3 = "0.031250 0.062500 0.093750" :=
  lutSynthesizer_output_structure "src" "ref" 1 2 3 (by omega) (by omega) (by omega)

/-- Claim C10: the LUT export function returns the identical output string for
every pair of runs — its result does not depend on the source image, the
reference image, or the intensity argument. -/
theorem generateLUTData_input_independent :
    ∀ (s1 u1 : String) (t1 : ℚ) (s2 u2 : String) (t2 : ℚ),
      generateLUTData s1 u1 t1 = generateLUTData s2 u2 t2 :=
  fun _ _ _ _ _ _ => rfl

/-- Claim C2 (evaluation of the defect): the emitted payload is a fixed
identity grid, independent of the source image, reference image and intensity;
at grid node `(7, 0, 0)` of the round-trip scenario with intensity 1 the
emitted line is the identity value `0.218750`, while the intended line of
§4.5 (channel mappings rescaled and blended) is `0.784314`. -/
theorem lutSynthesizer_stub_diverges :
    (∀ (s u : String) (t : ℚ), generateLUTData s u t = generateLUTData "" "" 0) ∧
      lutLine 7 0 0 = "0.218750 0.000000 0.000000" ∧
      intendedLUTLine roundtripRedMapping roundtripRedMapping roundtripRedMapping 1 7 0 0 =
        "0.784314 0.000000 0.000000" := by
  have hzero : toFixed6 (((0 : ℕ) : ℚ) / ((LUT_SIZE : ℚ) - 1)) = "0.000000" := by
    rw [toFixed6_eval _ 0 (by norm_num [LUT_SIZE]) (by norm_num [LUT_SIZE])]
    decide
  refine ⟨fun s u t => rfl, ?_, ?_⟩
  · rw [lutLine, hzero]
    rw [toFixed6_eval _ 218750 (by norm_num [LUT_SIZE]) (by norm_num [LUT_SIZE])]
    decide
  · have hm56 : roundtripRedMapping 56 = 200 := roundtripRedMapping_saturated 56 (by decide)
    have hrte7 : roundTiesEven ((7 : ℕ) / ((LUT_SIZE : ℚ) - 1) * 255) = 56 := by
      have hf : ⌊((7 : ℕ) : ℚ) / ((LUT_SIZE : ℚ) - 1) * 255⌋ = 55 := by
        rw [Int.floor_eq_iff]
        constructor
        · push_cast
          norm_num [LUT_SIZE]
        · push_cast
          norm_num [LUT_SIZE]
      rw [roundTiesEven, hf]
      rw [if_neg (by push_cast; norm_num [LUT_SIZE]), if_pos (by push_cast; norm_num [LUT_SIZE])]
      norm_num
    have h7 : intendedValue roundtripRedMapping 1 7 = 200 / 255 := by
      simp only [intendedValue]
      rw [hrte7, show Int.toNat 56 = 56 from rfl, hm56]
      norm_num [LUT_SIZE]
    have h0 : intendedValue roundtripRedMapping 1 0 = 0 := by
      simp only [intendedValue]
      have hv : ((0 : ℕ) : ℚ) / ((LUT_SIZE : ℚ) - 1) * 255 = ((0 : ℕ) : ℚ) := by norm_num
      rw [hv, roundTiesEven_natCast, Int.toNat_natCast, roundtripRedMapping_zero]
      norm_num
    rw [intendedLUTLine, h7, h0]
    rw [toFixed6_eval _ 784314 (by norm_num) (by norm_num),
      toFixed6_eval _ 0 (by norm_num) (by norm_num)]
    decide

end LUTMatcher
